import Mathlib

/-!
# Verification of the github-settings-sync reconciliation engine

Shallow embedding of the reconciliation engine of `github-settings-sync`
(`src/index.js`, `src/services/repository.js`, `src/services/collaborators.js`,
`src/services/branch-protection.js`, `src/services/file-sync.js`,
`src/utils/filters.js`).

Modelling conventions:
* Every remote (Octokit) call a component issues is recorded in an output
  trace of type `List (RCall V)`; every `console.log`/`warn`/`error` line is
  recorded in a trace of type `List Log`, tagged by its category marker.
* The remote service and the local filesystem are an oracle `Env V`:
  each read is answered by the corresponding `Env` field, and each mutating
  call succeeds or fails according to `Env.mutOk` (the engine only uses the
  outcome for logging).  `Env.bpCurrent` records the remote branch-protection
  state; the code never reads it, and it is carried only so that theorems can
  speak about a remote state that already satisfies the desired configuration.
* Settings values and branch-protection rule objects are opaque values of a
  type `V` with decidable equality: the JS code compares them only through
  `JSON.stringify` equality, which this equality models, and otherwise passes
  them through verbatim.
* JS exceptions are modelled with `Except Unit`: a function that can throw
  returns `Except Unit α`, a `try`/`catch` is a `match` on that result.
  `new RegExp(p)` is modelled by `Env.regexCompile p : Option (String → Bool)`,
  `none` meaning the constructor throws (invalid pattern) and `some test`
  giving the semantics of `.test`.
* Base64 transport encoding in the file-sync service is a bijection on
  contents, so remote file contents are carried already decoded.
-/

/-- A collaborator record `{username, role}` (`role_name` on reads,
`permission` on writes). -/
structure Collaborator where
  username : String
  role : String
deriving DecidableEq, Repr

/-- The fields of a GitHub repository object the engine reads:
`name`, `language` (nullable), `archived`, `owner.login`. -/
structure Repo where
  name : String
  language : Option String
  archived : Bool
  owner : String
deriving DecidableEq, Repr

/-- The filter specification `{namePattern?, label?, language?}`.  A field is
"set" when it is a truthy string (JS: `undefined` and `""` are falsy). -/
structure Filters where
  namePattern : Option String
  label : Option String
  language : Option String
deriving DecidableEq, Repr

/-- JS truthiness of an optional string field: `undefined` and `""` are falsy. -/
def truthyS : Option String → Bool
  | none => false
  | some s => !(s == "")

/-- JS falsiness of `repo.language`: `null` (and `""`) is falsy. -/
def langFalsy : Option String → Bool
  | none => true
  | some s => s == ""

/-- A file sync entry `{path, localPath}` from the `files` section. -/
structure FileSyncSpec where
  path : String
  localPath : String
deriving DecidableEq, Repr

/-- Outcome of `octokit.repos.getContent`: a regular file (content already
base64-decoded, plus its sha), a non-file object (directory/submodule/...),
a 404 error, or any other error (which throws). -/
inductive ContentResult where
  | file (content sha : String)
  | notFile
  | notFound
  | failure
deriving DecidableEq, Repr

/-- The Octokit calls the engine can issue.  `removeCollaborator` is part of
the remote capability surface but is never emitted by any definition below;
it is included so that "no removal call is ever issued" is not vacuous. -/
inductive RCall (V : Type) where
  | listForOrg (org : String) (page : Nat)
  | reposGet (owner repo : String)
  | reposUpdate (owner repo : String) (payload : List (String × V))
  | listCollaborators (owner repo : String)
  | addCollaborator (owner repo username permission : String)
  | removeCollaborator (owner repo username : String)
  | updateBranchProtection (owner repo branch : String) (rule : V)
  | getContent (owner repo path : String)
  | createOrUpdateFileContents (owner repo path message content : String)
      (sha : Option String)
  | listLabelsForRepo (owner repo : String)
deriving DecidableEq, Repr

/-- A log line, tagged by its category marker in the source:
`info` (🔄/📦/✨/📊 console.log), `skip` (⏭️), `preview` (🔍), `success` (✅),
`warn` (⚠️ console.warn), `fail` (❌ console.error). -/
inductive Log where
  | info (msg : String)
  | skip (msg : String)
  | preview (msg : String)
  | success (msg : String)
  | warn (msg : String)
  | fail (msg : String)
deriving DecidableEq, Repr

/-- The desired configuration (`settings` argument of `syncSettings`): four
independently optional sections.  `some []` / `some {}` model a present but
empty section (truthy in JS). -/
structure SyncSettings (V : Type) where
  repository : Option (List (String × V))
  collaborators : Option (List Collaborator)
  branch_protection : Option (List (String × V))
  files : Option (List FileSyncSpec)

/-- The oracle answering every remote read, regex compilation, local file
read, and mutating-call outcome. -/
structure Env (V : Type) where
  pages : Nat → Except Unit (List Repo)
  regexCompile : String → Option (String → Bool)
  labels : String → String → Except Unit (List String)
  settingsGet : String → String → Except Unit (String → Option V)
  collabsGet : String → String → Except Unit (List Collaborator)
  contentGet : String → String → String → ContentResult
  localRead : String → Except Unit String
  mutOk : RCall V → Bool
  bpCurrent : String → String → String → Option V

/-- Result of a whole `syncSettings` run: the final summary counters, or the
fatal path (`process.exit(1)` from the orchestrator's catch). -/
inductive RunResult where
  | completed (total processed skipped : Nat)
  | fatalExit
deriving DecidableEq, Repr

/-- Whether a call mutates remote state. -/
def isMutating {V : Type} : RCall V → Bool
  | RCall.reposUpdate _ _ _ => true
  | RCall.addCollaborator _ _ _ _ => true
  | RCall.removeCollaborator _ _ _ => true
  | RCall.updateBranchProtection _ _ _ _ => true
  | RCall.createOrUpdateFileContents _ _ _ _ _ _ => true
  | _ => false

/-- Whether a call is a collaborator removal/revocation. -/
def isRemoval {V : Type} : RCall V → Bool
  | RCall.removeCollaborator _ _ _ => true
  | _ => false

/-- Whether a call is a mutation other than a branch-protection overwrite. -/
def isMutatingNonBP {V : Type} : RCall V → Bool
  | RCall.reposUpdate _ _ _ => true
  | RCall.addCollaborator _ _ _ _ => true
  | RCall.removeCollaborator _ _ _ => true
  | RCall.createOrUpdateFileContents _ _ _ _ _ _ => true
  | _ => false

/-- The closed role enum documented for collaborators. -/
def validRoles : List String := ["admin", "maintain", "write", "triage", "read"]

/-- Model of `getRepositoryLabels` (filters.js): list labels; on failure warn and
return `[]`. -/
def getRepositoryLabels {V : Type} (env : Env V) (org repo : String) :
    List Log × List (RCall V) × List String :=
  match env.labels org repo with
  | Except.ok data => ([], [RCall.listLabelsForRepo org repo], data)
  | Except.error _ =>
      ([Log.warn s!"Could not fetch labels for {repo}"],
       [RCall.listLabelsForRepo org repo], [])

/-- The label clause of `shouldProcessRepository`: fetch labels (lazily, only
when a label filter is set) and require membership. -/
def checkLabelFilter {V : Type} (env : Env V) (repo : Repo) (f : Filters) :
    List Log × List (RCall V) × Except Unit Bool :=
  if truthyS f.label then
    let r := getRepositoryLabels env repo.owner repo.name
    if !(r.2.2.contains (f.label.getD "")) then
      let lbl := f.label.getD ""
      let name := repo.name
      (r.1 ++ [Log.skip s!"Skipping {name} - does not have label {lbl}"],
       r.2.1, Except.ok false)
    else
      (r.1, r.2.1, Except.ok true)
  else
    ([], [], Except.ok true)

/-- The language clause of `shouldProcessRepository`: case-insensitive
equality; a repository with no language never matches. -/
def checkLanguageFilter {V : Type} (env : Env V) (repo : Repo) (f : Filters) :
    List Log × List (RCall V) × Except Unit Bool :=
  if truthyS f.language &&
      (langFalsy repo.language ||
        !((repo.language.getD "").toLower == (f.language.getD "").toLower)) then
    let lang := f.language.getD ""
    let name := repo.name
    ([Log.skip s!"Skipping {name} - does not match language {lang}"], [],
     Except.ok false)
  else
    checkLabelFilter env repo f

/-- The name-pattern clause of `shouldProcessRepository`:
`new RegExp(p).test(name)`; an invalid pattern throws. -/
def checkNameFilter {V : Type} (env : Env V) (repo : Repo) (f : Filters) :
    List Log × List (RCall V) × Except Unit Bool :=
  if truthyS f.namePattern then
    match env.regexCompile (f.namePattern.getD "") with
    | none => ([], [], Except.error ())
    | some test =>
        if !test repo.name then
          let pat := f.namePattern.getD ""
          let name := repo.name
          ([Log.skip s!"Skipping {name} - does not match name pattern {pat}"],
           [], Except.ok false)
        else
          checkLanguageFilter env repo f
  else
    checkLanguageFilter env repo f

/-- Model of `shouldProcessRepository` (filters.js): unconditionally true when no
filter field is set; otherwise archived repositories are rejected first, then
name pattern, language and label are checked in order with short-circuiting. -/
def shouldProcessRepository {V : Type} (env : Env V) (repo : Repo)
    (f : Filters) : List Log × List (RCall V) × Except Unit Bool :=
  if !truthyS f.namePattern && !truthyS f.label && !truthyS f.language then
    ([], [], Except.ok true)
  else if repo.archived then
    let name := repo.name
    ([Log.skip s!"Skipping {name} - repository is archived"], [],
     Except.ok false)
  else
    checkNameFilter env repo f

/-- Model of `getRepositoryCollaborators` (collaborators.js): list collaborators; on
failure warn and return `[]`. -/
def getRepositoryCollaborators {V : Type} (env : Env V) (org repo : String) :
    List Log × List (RCall V) × List Collaborator :=
  match env.collabsGet org repo with
  | Except.ok data => ([], [RCall.listCollaborators org repo], data)
  | Except.error _ =>
      ([Log.warn s!"Could not fetch collaborators for {repo}"],
       [RCall.listCollaborators org repo], [])

/-- One iteration of the loop in `updateRepositoryCollaborators`: classify a
desired entry against the current collaborators and act on it.  A mutation
failure is caught in place and only logged. -/
def collabStep {V : Type} (env : Env V) (org repo : String)
    (current : List Collaborator) (dryRun : Bool) (c : Collaborator) :
    List Log × List (RCall V) :=
  let u := c.username
  let role := c.role
  if !(current.map Collaborator.username).contains c.username then
    if dryRun then
      ([Log.preview s!"Would add collaborator {u} with role {role} to {repo}"],
       [])
    else
      let call := RCall.addCollaborator org repo c.username c.role
      if env.mutOk call then
        ([Log.success s!"Added collaborator {u} with role {role} to {repo}"],
         [call])
      else
        ([Log.fail s!"Failed to add collaborator {u} to {repo}"], [call])
  else
    match current.find? (fun x => x.username == c.username) with
    | some cur =>
        if cur.role != c.role then
          if dryRun then
            let from_ := cur.role
            ([Log.preview
                s!"Would update role for {u} from {from_} to {role} in {repo}"],
             [])
          else
            let call := RCall.addCollaborator org repo c.username c.role
            if env.mutOk call then
              ([Log.success s!"Updated role for {u} to {role} in {repo}"],
               [call])
            else
              ([Log.fail s!"Failed to update role for {u} in {repo}"], [call])
        else
          ([], [])
    | none => ([], [])

/-- Run a per-element body (returning logs and calls) over a list in order,
concatenating the traces — the sequential `for ... of` loops of the source. -/
def forTrace {V α : Type} (body : α → List Log × List (RCall V)) :
    List α → List Log × List (RCall V)
  | [] => ([], [])
  | x :: xs =>
      let r := body x
      let rest := forTrace body xs
      (r.1 ++ rest.1, r.2 ++ rest.2)

/-- Model of `updateRepositoryCollaborators` (collaborators.js): fetch current
collaborators, then add/update each desired entry independently. -/
def updateRepositoryCollaborators {V : Type} (env : Env V) (org repo : String)
    (desired : List Collaborator) (dryRun : Bool) :
    List Log × List (RCall V) :=
  let r := getRepositoryCollaborators env org repo
  let steps := forTrace (collabStep env org repo r.2.2 dryRun) desired
  (r.1 ++ steps.1, r.2.1 ++ steps.2)

/-- Model of `updateBranchProtection` (branch-protection.js): unconditional full
overwrite of one branch's protection (no read of current state); in dry-run
only a preview is logged; a failure is caught and logged. -/
def updateBranchProtection {V : Type} (env : Env V)
    (org repo branch : String) (settings : V) (dryRun : Bool) :
    List Log × List (RCall V) :=
  if dryRun then
    ([Log.preview s!"Would update branch protection for {branch} in {repo}"],
     [])
  else
    let call := RCall.updateBranchProtection org repo branch settings
    if env.mutOk call then
      ([Log.success
          s!"Successfully updated branch protection for {branch} in {repo}"],
       [call])
    else
      ([Log.fail s!"Failed to update branch protection for {repo}"], [call])

/-- Model of `getRepositorySettings` (repository.js): fetch current settings; on
failure log and return `null`. -/
def getRepositorySettings {V : Type} (env : Env V) (org repo : String) :
    List Log × List (RCall V) × Option (String → Option V) :=
  match env.settingsGet org repo with
  | Except.ok data => ([], [RCall.reposGet org repo], some data)
  | Except.error _ =>
      ([Log.fail s!"Failed to fetch settings for {repo}"],
       [RCall.reposGet org repo], none)

/-- Model of `getSettingsDiff` (repository.js): the entries of `desired` whose value
differs (by stringify equality) from the current value at the same key; a key
absent from `current` always differs. -/
def getSettingsDiff {V : Type} [DecidableEq V]
    (current : String → Option V) (desired : List (String × V)) :
    List (String × V) :=
  desired.filter (fun kv => !(current kv.1 == some kv.2))

/-- Model of `updateRepositorySettings` (repository.js): when the `repository` section
is present, fetch current settings (abort this domain on failure), diff,
skip when the diff is empty, otherwise preview (dry-run) or issue a single
partial update carrying exactly the diff. -/
def updateRepositorySettings {V : Type} [DecidableEq V] (env : Env V)
    (org repo : String) (settings : SyncSettings V) (dryRun : Bool) :
    List Log × List (RCall V) :=
  match settings.repository with
  | none => ([], [])
  | some desired =>
      let r := getRepositorySettings env org repo
      match r.2.2 with
      | none => (r.1, r.2.1)
      | some current =>
          let settingsDiff := getSettingsDiff current desired
          if settingsDiff.isEmpty then
            (r.1 ++ [Log.skip s!"Skipping {repo} - settings match"], r.2.1)
          else if dryRun then
            (r.1 ++ [Log.preview
                s!"Would update repository settings for {repo}"], r.2.1)
          else
            let call := RCall.reposUpdate org repo settingsDiff
            if env.mutOk call then
              (r.1 ++ [Log.success
                  s!"Successfully updated settings for {repo}"],
               r.2.1 ++ [call])
            else
              (r.1 ++ [Log.fail s!"Failed to update settings for {repo}"],
               r.2.1 ++ [call])

/-- Model of `getFileContent` (file-sync.js): fetch the remote file; a regular file
yields its decoded content and sha, a non-file object or a 404 yields `null`,
any other failure throws. -/
def getFileContent {V : Type} (env : Env V) (org repo path : String) :
    List (RCall V) × Except Unit (Option (String × String)) :=
  match env.contentGet org repo path with
  | ContentResult.file content sha =>
      ([RCall.getContent org repo path], Except.ok (some (content, sha)))
  | ContentResult.notFile => ([RCall.getContent org repo path], Except.ok none)
  | ContentResult.notFound => ([RCall.getContent org repo path], Except.ok none)
  | ContentResult.failure => ([RCall.getContent org repo path], Except.error ())

/-- Model of `updateFileContent` (file-sync.js): the upsert.  Commit message is
`Update <path>` when a prior sha is carried, `Add <path>` otherwise; dry-run
logs the intended action and the content length; a failure is caught and
logged. -/
def updateFileContent {V : Type} (env : Env V) (org repo path content : String)
    (sha : Option String) (dryRun : Bool) : List Log × List (RCall V) :=
  let message := match sha with
    | some _ => s!"Update {path}"
    | none => s!"Add {path}"
  if dryRun then
    let verb : String := match sha with
      | some _ => "update"
      | none => "create"
    let n := content.length
    ([Log.preview s!"Would {verb} file {path} in {repo}",
      Log.preview s!"Content length: {n} characters"], [])
  else
    let call := RCall.createOrUpdateFileContents org repo path message
      content sha
    if env.mutOk call then
      ([Log.success s!"Successfully upserted {path} in {repo}"], [call])
    else
      ([Log.fail s!"Failed to update {path} in {repo}"], [call])

/-- Model of `syncFileContent` (file-sync.js): read the local file, fetch the remote
file, upsert when absent or different, skip when equal; every failure is
caught here and aborts only this file's sync. -/
def syncFileContent {V : Type} (env : Env V) (org repo : String)
    (fileSync : FileSyncSpec) (dryRun : Bool) : List Log × List (RCall V) :=
  let path := fileSync.path
  match env.localRead fileSync.localPath with
  | Except.error _ =>
      ([Log.fail s!"Failed to sync file {path} in {repo}"], [])
  | Except.ok localContent =>
      let r := getFileContent env org repo fileSync.path
      match r.2 with
      | Except.error _ =>
          ([Log.fail s!"Failed to sync file {path} in {repo}"], r.1)
      | Except.ok currentFile =>
          match currentFile with
          | none =>
              let u := updateFileContent env org repo fileSync.path
                localContent none dryRun
              (u.1, r.1 ++ u.2)
          | some (content, sha) =>
              if content != localContent then
                let u := updateFileContent env org repo fileSync.path
                  localContent (some sha) dryRun
                (u.1, r.1 ++ u.2)
              else
                ([Log.skip s!"Skipping {path} in {repo} - content matches"],
                 r.1)

/-- The pagination loop of `getRepositories` (repository.js): request pages
of 100 until an empty page; any page failure throws (no partial results).
The fuel bounds the number of iterations; exhaustion is modelled as a
failure. -/
def getRepositoriesAux {V : Type} (env : Env V) (org : String) :
    Nat → Nat → List Repo → List (RCall V) × Except Unit (List Repo)
  | 0, _, _ => ([], Except.error ())
  | Nat.succ fuel, page, acc =>
      match env.pages page with
      | Except.error _ => ([RCall.listForOrg org page], Except.error ())
      | Except.ok [] => ([RCall.listForOrg org page], Except.ok acc)
      | Except.ok (d :: ds) =>
          let r := getRepositoriesAux env org fuel (page + 1)
            (acc ++ (d :: ds))
          (RCall.listForOrg org page :: r.1, r.2)

/-- Model of `getRepositories` (repository.js): enumerate all repositories of the
organization, starting at page 1. -/
def getRepositories {V : Type} (env : Env V) (org : String) (fuel : Nat) :
    List (RCall V) × Except Unit (List Repo) :=
  getRepositoriesAux env org fuel 1 []

/-- The `settings.collaborators` block of the per-repository loop in
`syncSettings` (index.js): when the section is present, reconcile
collaborators and log the unconditional success line. -/
def collabSection {V : Type} (env : Env V) (org name : String)
    (oc : Option (List Collaborator)) (dryRun : Bool) :
    List Log × List (RCall V) :=
  match oc with
  | none => ([], [])
  | some desired =>
      let r := updateRepositoryCollaborators env org name desired dryRun
      (r.1 ++ [Log.success s!"Updated collaborators for {name}"], r.2)

/-- The `settings.branch_protection` block of the per-repository loop:
when present, overwrite each branch in entry order, then log. -/
def bpSection {V : Type} (env : Env V) (org name : String)
    (obp : Option (List (String × V))) (dryRun : Bool) :
    List Log × List (RCall V) :=
  match obp with
  | none => ([], [])
  | some bp =>
      let r := forTrace
        (fun (p : String × V) =>
          updateBranchProtection env org name p.1 p.2 dryRun) bp
      (r.1 ++ [Log.success s!"Updated branch protection for {name}"], r.2)

/-- The `settings.files` block of the per-repository loop: when present,
sync each file in order, then log. -/
def filesSection {V : Type} (env : Env V) (org name : String)
    (ofl : Option (List FileSyncSpec)) (dryRun : Bool) :
    List Log × List (RCall V) :=
  match ofl with
  | none => ([], [])
  | some fl =>
      let r := forTrace
        (fun spec => syncFileContent env org name spec dryRun) fl
      (r.1 ++ [Log.success s!"Synced file content for {name}"], r.2)

/-- The body of the per-repository loop in `syncSettings` (index.js): filter,
then apply each configured domain in order (settings → collaborators →
branch protection → files).  Returns `ok true` when the repository was
processed, `ok false` when skipped, `error` when the filter threw. -/
def processRepo {V : Type} [DecidableEq V] (env : Env V) (org : String)
    (settings : SyncSettings V) (f : Filters) (dryRun : Bool) (repo : Repo) :
    List Log × List (RCall V) × Except Unit Bool :=
  let d := shouldProcessRepository env repo f
  match d.2.2 with
  | Except.error e => (d.1, d.2.1, Except.error e)
  | Except.ok false => (d.1, d.2.1, Except.ok false)
  | Except.ok true =>
      let s1 := updateRepositorySettings env org repo.name settings dryRun
      let s2 := collabSection env org repo.name settings.collaborators dryRun
      let s3 := bpSection env org repo.name settings.branch_protection dryRun
      let s4 := filesSection env org repo.name settings.files dryRun
      (d.1 ++ s1.1 ++ s2.1 ++ s3.1 ++ s4.1,
       d.2.1 ++ s1.2 ++ s2.2 ++ s3.2 ++ s4.2, Except.ok true)

/-- The repository loop of `syncSettings`, threading the processed and
skipped counters; an exception from a loop body aborts the loop. -/
def syncLoop {V : Type} [DecidableEq V] (env : Env V) (org : String)
    (settings : SyncSettings V) (f : Filters) (dryRun : Bool) :
    List Repo → Nat → Nat →
    List Log × List (RCall V) × Except Unit (Nat × Nat)
  | [], p, sk => ([], [], Except.ok (p, sk))
  | repo :: rest, p, sk =>
      let r := processRepo env org settings f dryRun repo
      match r.2.2 with
      | Except.error e => (r.1, r.2.1, Except.error e)
      | Except.ok true =>
          let next := syncLoop env org settings f dryRun rest (p + 1) sk
          (r.1 ++ next.1, r.2.1 ++ next.2.1, next.2.2)
      | Except.ok false =>
          let next := syncLoop env org settings f dryRun rest p (sk + 1)
          (r.1 ++ next.1, r.2.1 ++ next.2.1, next.2.2)

/-- Model of `syncSettings` (index.js): the orchestrator.  Enumerate, loop over
repositories, and either emit the final summary or — when an exception
reaches the top-level catch — log the error and `process.exit(1)`. -/
def syncSettings {V : Type} [DecidableEq V] (env : Env V) (org : String)
    (settings : SyncSettings V) (f : Filters) (dryRun : Bool) (fuel : Nat) :
    List Log × List (RCall V) × RunResult :=
  let intro : List Log :=
    Log.info s!"Starting settings sync for organization: {org}" ::
      (if dryRun then
        [Log.info "Running in dry-run mode - no changes will be made"]
      else [])
  let enum := getRepositories env org fuel
  match enum.2 with
  | Except.error _ =>
      (intro ++ [Log.fail "Error during sync"], enum.1, RunResult.fatalExit)
  | Except.ok repos =>
      let total := repos.length
      let found := [Log.info s!"Found {total} repositories"]
      let run := syncLoop env org settings f dryRun repos 0 0
      match run.2.2 with
      | Except.error _ =>
          (intro ++ found ++ run.1 ++ [Log.fail "Error during sync"],
           enum.1 ++ run.2.1, RunResult.fatalExit)
      | Except.ok (p, sk) =>
          (intro ++ found ++ run.1 ++
             [Log.info "Settings sync completed!",
              Log.info s!"Summary: total {total} processed {p} skipped {sk}"],
           enum.1 ++ run.2.1, RunResult.completed total p sk)

/-! ## Derived state helpers (used to state the properties) -/

/-- The label set the filter effectively compares against: the fetched labels,
with a fetch failure giving the empty set. -/
def labelsOf {V : Type} (env : Env V) (org repo : String) : List String :=
  match env.labels org repo with
  | Except.ok l => l
  | Except.error _ => []

/-- The collaborator list the reconciler effectively diffs against: the fetched
collaborators, with a fetch failure giving the empty list. -/
def currentCollabsOf {V : Type} (env : Env V) (org repo : String) :
    List Collaborator :=
  match env.collabsGet org repo with
  | Except.ok d => d
  | Except.error _ => []

/-- Whether a desired collaborator entry requires a set-permission call:
Add (username absent) or Update (present with a different role). -/
def needsCollabCall (current : List Collaborator) (c : Collaborator) : Bool :=
  if !(current.map Collaborator.username).contains c.username then true
  else
    match current.find? (fun x => x.username == c.username) with
    | some cur => cur.role != c.role
    | none => false

/-- The name-pattern predicate of the filter, given the compiled regex. -/
def namePass (test : String → Bool) (f : Filters) (repo : Repo) : Bool :=
  !truthyS f.namePattern || test repo.name

/-- The language predicate of the filter: case-insensitive equality, with a
repository with no language never matching. -/
def languagePass (f : Filters) (repo : Repo) : Bool :=
  !truthyS f.language ||
    (!langFalsy repo.language &&
      ((repo.language.getD "").toLower == (f.language.getD "").toLower))

/-- The label predicate of the filter, against the effectively fetched set. -/
def labelPass {V : Type} (env : Env V) (f : Filters) (repo : Repo) : Bool :=
  !truthyS f.label ||
    (labelsOf env repo.owner repo.name).contains (f.label.getD "")

/-- Whether the filter decision for a repository is a non-throwing `true`. -/
def filterPasses {V : Type} (env : Env V) (f : Filters) (repo : Repo) : Bool :=
  match (shouldProcessRepository env repo f).2.2 with
  | Except.ok b => b
  | Except.error _ => false

/-! ## Satisfaction of the desired configuration by the remote state -/

/-- The remote repository settings already satisfy the desired `repository`
section: the fetch succeeds and the diff is empty. -/
def settingsOkB {V : Type} [DecidableEq V] (env : Env V) (org r : String) :
    Option (List (String × V)) → Bool
  | none => true
  | some desired =>
      match env.settingsGet org r with
      | Except.ok cur => (getSettingsDiff cur desired).isEmpty
      | Except.error _ => false

/-- Every desired collaborator is already present with the desired role. -/
def collabsOkB {V : Type} (env : Env V) (org r : String) :
    Option (List Collaborator) → Bool
  | none => true
  | some dc =>
      dc.all (fun c =>
        match (currentCollabsOf env org r).find?
            (fun x => x.username == c.username) with
        | some cc => cc.role == c.role
        | none => false)

/-- The remote branch protection already equals every desired rule. -/
def bpOkB {V : Type} [DecidableEq V] (env : Env V) (org r : String) :
    Option (List (String × V)) → Bool
  | none => true
  | some bp => bp.all (fun p => decide (env.bpCurrent org r p.1 = some p.2))

/-- One file spec is already satisfied: local read succeeds and the remote
path holds a regular file with exactly the local content. -/
def fileOkB {V : Type} (env : Env V) (org r : String)
    (spec : FileSyncSpec) : Bool :=
  match env.localRead spec.localPath, env.contentGet org r spec.path with
  | Except.ok content, ContentResult.file rc _ => rc == content
  | _, _ => false

/-- Every desired file is already satisfied. -/
def filesOkB {V : Type} (env : Env V) (org r : String) :
    Option (List FileSyncSpec) → Bool
  | none => true
  | some fl => fl.all (fileOkB env org r)

/-- The remote state of one repository already satisfies the desired
configuration in every domain. -/
def repoSatisfiesB {V : Type} [DecidableEq V] (env : Env V) (org : String)
    (s : SyncSettings V) (repo : Repo) : Bool :=
  settingsOkB env org repo.name s.repository &&
    collabsOkB env org repo.name s.collaborators &&
    bpOkB env org repo.name s.branch_protection &&
    filesOkB env org repo.name s.files

/-! ## Concrete environments for witnesses and counterexamples -/

/-- A benign concrete environment: one single-repository page, all reads
succeed, all regexes compile to an always-true test, all mutations succeed. -/
def envA : Env String where
  pages := fun p =>
    if p = 1 then Except.ok [⟨"svc-a", some "Go", false, "org"⟩]
    else Except.ok []
  regexCompile := fun _ => some (fun _ => true)
  labels := fun _ _ => Except.ok ["infra"]
  settingsGet := fun _ _ =>
    Except.ok (fun k => if k = "has_issues" then some "true" else none)
  collabsGet := fun _ _ => Except.ok [⟨"alice", "write"⟩]
  contentGet := fun _ _ _ => ContentResult.file "hello" "sha1"
  localRead := fun _ => Except.ok "hello"
  mutOk := fun _ => true
  bpCurrent := fun _ _ _ => some "rule"


/-- The desired repository section used in the C2 witness. -/
def exDesired2 : List (String × String) :=
  [("has_issues", "false"), ("has_wiki", "true")]

/-- The current settings returned by `envA` (as a lookup function). -/
def exCur2 : String → Option String :=
  fun k => if k = "has_issues" then some "true" else none

/-- Whether a log line is a dry-run preview. -/
def isPreview : Log → Bool
  | Log.preview _ => true
  | _ => false

/-- The environment used in C3's counterexample: the enumerator succeeds,
but every regex fails to compile (`new RegExp` throws). -/
def envBadRegex : Env String := { envA with regexCompile := fun _ => none }

/-- The environment used in C3's witness: enumeration succeeds and the regex
compiles, but every other oracle fails. -/
def envFail : Env String where
  pages := fun p =>
    if p = 1 then Except.ok [⟨"svc-a", some "Go", false, "org"⟩]
    else Except.ok []
  regexCompile := fun _ => some (fun _ => true)
  labels := fun _ _ => Except.error ()
  settingsGet := fun _ _ => Except.error ()
  collabsGet := fun _ _ => Except.error ()
  contentGet := fun _ _ _ => ContentResult.failure
  localRead := fun _ => Except.error ()
  mutOk := fun _ => false
  bpCurrent := fun _ _ _ => none

/-- The full desired configuration used in witnesses: all four sections
present. -/
def exSettingsAll : SyncSettings String :=
  ⟨some [("has_issues", "true")], some [⟨"alice", "admin"⟩],
   some [("main", "rule")], some [⟨"f.txt", "local/f.txt"⟩]⟩

/-- A desired configuration fully satisfied by `envA`, with a non-empty
branch-protection section. -/
def exSettingsC : SyncSettings String :=
  ⟨some [("has_issues", "true")], some [⟨"alice", "write"⟩],
   some [("main", "rule")], some [⟨"f.txt", "local/f.txt"⟩]⟩

/-! ## Theorems -/

/-- Membership in the settings diff: exactly the desired entries whose value
differs from the current value at that key. -/
theorem mem_getSettingsDiff {V : Type} [DecidableEq V]
    (current : String → Option V) (desired : List (String × V))
    (k : String) (v : V) :
    (k, v) ∈ getSettingsDiff current desired ↔
      ((k, v) ∈ desired ∧ ¬ current k = some v) := by
  unfold getSettingsDiff
  simp [List.mem_filter]

/-- C9: a filter specification with no populated field matches every
repository unconditionally — no archived check, no label fetch, no log. -/
theorem empty_filter_passthrough {V : Type} (env : Env V) (repo : Repo)
    (f : Filters) (h1 : truthyS f.namePattern = false)
    (h2 : truthyS f.label = false) (h3 : truthyS f.language = false) :
    shouldProcessRepository env repo f = ([], [], Except.ok true) := by
  unfold shouldProcessRepository
  simp [h1, h2, h3]

/-- Witness for C9: the empty filter accepts an archived repository, with no
label fetch. -/
theorem empty_filter_passthrough_witness :
    truthyS (none : Option String) = false ∧
      shouldProcessRepository envA ⟨"old", none, true, "org"⟩
        ⟨none, none, none⟩ = ([], [], Except.ok true) :=
  ⟨rfl, empty_filter_passthrough envA ⟨"old", none, true, "org"⟩
    ⟨none, none, none⟩ rfl rfl rfl⟩

/-- C2: when the `repository` section is present and the current-settings
fetch succeeds, any issued live-mode update call carries exactly the desired
entries whose value differs from the current value — no extra keys, no
omitted differing keys — and when the diff is empty the only call is the read
and a skip is logged. -/
theorem diff_minimality {V : Type} [DecidableEq V] (env : Env V)
    (org repo : String) (s : SyncSettings V) (desired : List (String × V))
    (current : String → Option V)
    (hdes : s.repository = some desired)
    (hfetch : env.settingsGet org repo = Except.ok current) :
    (∀ payload, RCall.reposUpdate org repo payload ∈
        (updateRepositorySettings env org repo s false).2 →
      ∀ k v, ((k, v) ∈ payload ↔ ((k, v) ∈ desired ∧ ¬ current k = some v))) ∧
    (getSettingsDiff current desired = [] →
      (updateRepositorySettings env org repo s false).2 =
          [RCall.reposGet org repo] ∧
        Log.skip s!"Skipping {repo} - settings match" ∈
          (updateRepositorySettings env org repo s false).1) := by
  unfold updateRepositorySettings getRepositorySettings
  rw [hdes, hfetch]
  simp only []
  by_cases hde : (getSettingsDiff current desired).isEmpty
  · simp only [hde, if_true]
    constructor
    · intro payload hmem
      simp at hmem
    · intro _
      simp
  · simp only [hde, if_false]
    constructor
    · intro payload hmem k v
      have hpay : payload = getSettingsDiff current desired := by
        by_cases hok : env.mutOk (RCall.reposUpdate org repo
            (getSettingsDiff current desired))
        · simp only [hok, if_true] at hmem
          simp at hmem
          exact hmem
        · simp only [hok, if_false] at hmem
          simp at hmem
          exact hmem
      rw [hpay]
      exact mem_getSettingsDiff current desired k v
    · intro hdiff
      rw [hdiff] at hde
      simp at hde

/-- Witness for C2 at a concrete input: `envA`, one differing key and one
absent key. -/
theorem diff_minimality_witness :
    (∀ payload, RCall.reposUpdate "org" "svc-a" payload ∈
        (updateRepositorySettings envA "org" "svc-a"
          ⟨some exDesired2, none, none, none⟩ false).2 →
      ∀ k v, ((k, v) ∈ payload ↔
        ((k, v) ∈ exDesired2 ∧ ¬ exCur2 k = some v))) ∧
    (getSettingsDiff exCur2 exDesired2 = [] →
      (updateRepositorySettings envA "org" "svc-a"
          ⟨some exDesired2, none, none, none⟩ false).2 =
          [RCall.reposGet "org" "svc-a"] ∧
        Log.skip s!"Skipping svc-a - settings match" ∈
          (updateRepositorySettings envA "org" "svc-a"
            ⟨some exDesired2, none, none, none⟩ false).1) :=
  diff_minimality envA "org" "svc-a" ⟨some exDesired2, none, none, none⟩
    exDesired2 exCur2 rfl rfl

/-- C10: a successful remote fetch whose result is not a regular file
(directory, submodule, ...) yields `null` exactly like the 404 case, so
`syncFileContent` treats the path as having no existing file and issues a
create call with no sha and commit message `Add <path>`. -/
theorem notfile_treated_as_absent {V : Type} (env : Env V)
    (org repo path localPath localContent : String)
    (hnf : env.contentGet org repo path = ContentResult.notFile)
    (hloc : env.localRead localPath = Except.ok localContent) :
    getFileContent env org repo path =
        ([RCall.getContent org repo path], Except.ok none) ∧
      (syncFileContent env org repo ⟨path, localPath⟩ false).2 =
        [RCall.getContent org repo path,
         RCall.createOrUpdateFileContents org repo path s!"Add {path}"
           localContent none] := by
  have h1 : getFileContent env org repo path =
      ([RCall.getContent org repo path], Except.ok none) := by
    unfold getFileContent
    rw [hnf]
  refine ⟨h1, ?_⟩
  unfold syncFileContent
  rw [hloc, h1]
  unfold updateFileContent
  by_cases hok : env.mutOk (RCall.createOrUpdateFileContents org repo path
      s!"Add {path}" localContent none) <;> simp [hok]

/-- Witness for C10: `envA` with the remote path naming a directory. -/
theorem notfile_treated_as_absent_witness :
    getFileContent { envA with contentGet := fun _ _ _ => ContentResult.notFile }
        "org" "svc-a" "docs" =
        ([RCall.getContent "org" "svc-a" "docs"], Except.ok none) ∧
      (syncFileContent
          { envA with contentGet := fun _ _ _ => ContentResult.notFile }
          "org" "svc-a" ⟨"docs", "local/docs"⟩ false).2 =
        [RCall.getContent "org" "svc-a" "docs",
         RCall.createOrUpdateFileContents "org" "svc-a" "docs" s!"Add docs"
           "hello" none] :=
  notfile_treated_as_absent
    { envA with contentGet := fun _ _ _ => ContentResult.notFile }
    "org" "svc-a" "docs" "local/docs" "hello" rfl rfl

/-- C8: when the local read succeeds, a live-mode file sync issues exactly
one create (`Add <path>`, no sha) when the remote file is absent (404 yields
`null`, not an error), exactly one update (`Update <path>`, with the prior
sha) when the remote content differs, no upsert and a skip log when the
contents are equal, and on any other fetch failure issues no upsert and only
logs, aborting this file's sync alone. -/
theorem file_upsert_semantics {V : Type} (env : Env V)
    (org repo path localPath localContent : String)
    (hloc : env.localRead localPath = Except.ok localContent) :
    (env.contentGet org repo path = ContentResult.notFound →
      getFileContent env org repo path =
          ([RCall.getContent org repo path], Except.ok none) ∧
        (syncFileContent env org repo ⟨path, localPath⟩ false).2 =
          [RCall.getContent org repo path,
           RCall.createOrUpdateFileContents org repo path s!"Add {path}"
             localContent none]) ∧
    (∀ rc sha, env.contentGet org repo path = ContentResult.file rc sha →
      ¬ rc = localContent →
      (syncFileContent env org repo ⟨path, localPath⟩ false).2 =
        [RCall.getContent org repo path,
         RCall.createOrUpdateFileContents org repo path s!"Update {path}"
           localContent (some sha)]) ∧
    (∀ sha, env.contentGet org repo path = ContentResult.file localContent sha →
      (syncFileContent env org repo ⟨path, localPath⟩ false).2 =
          [RCall.getContent org repo path] ∧
        Log.skip s!"Skipping {path} in {repo} - content matches" ∈
          (syncFileContent env org repo ⟨path, localPath⟩ false).1) ∧
    (env.contentGet org repo path = ContentResult.failure →
      (syncFileContent env org repo ⟨path, localPath⟩ false).2 =
          [RCall.getContent org repo path] ∧
        Log.fail s!"Failed to sync file {path} in {repo}" ∈
          (syncFileContent env org repo ⟨path, localPath⟩ false).1) := by
  refine ⟨?_, ?_, ?_, ?_⟩
  · intro h404
    have h1 : getFileContent env org repo path =
        ([RCall.getContent org repo path], Except.ok none) := by
      unfold getFileContent
      rw [h404]
    refine ⟨h1, ?_⟩
    unfold syncFileContent
    rw [hloc, h1]
    unfold updateFileContent
    by_cases hok : env.mutOk (RCall.createOrUpdateFileContents org repo path
        s!"Add {path}" localContent none) <;> simp [hok]
  · intro rc sha hfile hne
    have h1 : getFileContent env org repo path =
        ([RCall.getContent org repo path], Except.ok (some (rc, sha))) := by
      unfold getFileContent
      rw [hfile]
    unfold syncFileContent updateFileContent
    rw [hloc, h1]
    by_cases hok : env.mutOk (RCall.createOrUpdateFileContents org repo path
        s!"Update {path}" localContent (some sha)) <;>
      simp [hok, bne_iff_ne, hne]
  · intro sha hfile
    have h1 : getFileContent env org repo path =
        ([RCall.getContent org repo path],
         Except.ok (some (localContent, sha))) := by
      unfold getFileContent
      rw [hfile]
    unfold syncFileContent
    rw [hloc, h1]
    simp
  · intro hfl
    have h1 : getFileContent env org repo path =
        ([RCall.getContent org repo path], Except.error ()) := by
      unfold getFileContent
      rw [hfl]
    unfold syncFileContent
    rw [hloc, h1]
    simp

/-- Witness for C8: `envA` with the remote file absent (404); the instantiated
conclusion in particular yields the create call with message `Add .gitignore`
and no sha. -/
theorem file_upsert_semantics_witness :
    (({ envA with contentGet := fun _ _ _ => ContentResult.notFound } :
        Env String).contentGet "org" "svc-a" ".gitignore" =
          ContentResult.notFound →
      getFileContent { envA with contentGet := fun _ _ _ => ContentResult.notFound }
          "org" "svc-a" ".gitignore" =
          ([RCall.getContent "org" "svc-a" ".gitignore"], Except.ok none) ∧
        (syncFileContent
            { envA with contentGet := fun _ _ _ => ContentResult.notFound }
            "org" "svc-a" ⟨".gitignore", "t/.gitignore"⟩ false).2 =
          [RCall.getContent "org" "svc-a" ".gitignore",
           RCall.createOrUpdateFileContents "org" "svc-a" ".gitignore"
             s!"Add .gitignore" "hello" none]) ∧
    (∀ rc sha,
      ({ envA with contentGet := fun _ _ _ => ContentResult.notFound } :
          Env String).contentGet "org" "svc-a" ".gitignore" =
          ContentResult.file rc sha →
      ¬ rc = "hello" →
      (syncFileContent
          { envA with contentGet := fun _ _ _ => ContentResult.notFound }
          "org" "svc-a" ⟨".gitignore", "t/.gitignore"⟩ false).2 =
        [RCall.getContent "org" "svc-a" ".gitignore",
         RCall.createOrUpdateFileContents "org" "svc-a" ".gitignore"
           s!"Update .gitignore" "hello" (some sha)]) ∧
    (∀ sha,
      ({ envA with contentGet := fun _ _ _ => ContentResult.notFound } :
          Env String).contentGet "org" "svc-a" ".gitignore" =
          ContentResult.file "hello" sha →
      (syncFileContent
          { envA with contentGet := fun _ _ _ => ContentResult.notFound }
          "org" "svc-a" ⟨".gitignore", "t/.gitignore"⟩ false).2 =
          [RCall.getContent "org" "svc-a" ".gitignore"] ∧
        Log.skip s!"Skipping .gitignore in svc-a - content matches" ∈
          (syncFileContent
            { envA with contentGet := fun _ _ _ => ContentResult.notFound }
            "org" "svc-a" ⟨".gitignore", "t/.gitignore"⟩ false).1) ∧
    (({ envA with contentGet := fun _ _ _ => ContentResult.notFound } :
        Env String).contentGet "org" "svc-a" ".gitignore" =
          ContentResult.failure →
      (syncFileContent
          { envA with contentGet := fun _ _ _ => ContentResult.notFound }
          "org" "svc-a" ⟨".gitignore", "t/.gitignore"⟩ false).2 =
          [RCall.getContent "org" "svc-a" ".gitignore"] ∧
        Log.fail s!"Failed to sync file .gitignore in svc-a" ∈
          (syncFileContent
            { envA with contentGet := fun _ _ _ => ContentResult.notFound }
            "org" "svc-a" ⟨".gitignore", "t/.gitignore"⟩ false).1) :=
  file_upsert_semantics
    { envA with contentGet := fun _ _ _ => ContentResult.notFound }
    "org" "svc-a" ".gitignore" "t/.gitignore" "hello" rfl

/-- A live-mode collaborator step issues exactly one set-permission call when
the entry needs one (Add or Update) and none otherwise, carrying the desired
username and role verbatim. -/
theorem collabStep_calls_live {V : Type} (env : Env V) (org repo : String)
    (current : List Collaborator) (c : Collaborator) :
    (collabStep env org repo current false c).2 =
      if needsCollabCall current c then
        [RCall.addCollaborator org repo c.username c.role]
      else [] := by
  unfold collabStep needsCollabCall
  cases hx : (current.map Collaborator.username).contains c.username with
  | true =>
      simp only [hx, Bool.not_true, Bool.false_eq_true, if_false]
      cases hf : current.find? (fun x => x.username == c.username) with
      | none => simp
      | some cur =>
          by_cases h2 : cur.role != c.role
          · by_cases hok : env.mutOk (RCall.addCollaborator org repo
                c.username c.role) <;> simp [h2, hok]
          · simp [h2]
  | false =>
      simp only [hx, Bool.not_false, if_true]
      by_cases hok : env.mutOk (RCall.addCollaborator org repo
          c.username c.role) <;> simp [hok]

/-- A dry-run collaborator step issues no call at all. -/
theorem collabStep_calls_dry {V : Type} (env : Env V) (org repo : String)
    (current : List Collaborator) (c : Collaborator) :
    (collabStep env org repo current true c).2 = [] := by
  unfold collabStep
  cases hx : (current.map Collaborator.username).contains c.username with
  | true =>
      simp only [hx, Bool.not_true, Bool.false_eq_true, if_false]
      cases hf : current.find? (fun x => x.username == c.username) with
      | none => simp
      | some cur => by_cases h2 : cur.role != c.role <;> simp [h2]
  | false => simp only [hx, Bool.not_false, if_true]

/-- The calls of the collaborator loop: in live mode, one set-permission call
per desired entry that needs one, in the order of the desired list. -/
theorem forTrace_collab_calls {V : Type} (env : Env V) (org repo : String)
    (current : List Collaborator) (dryRun : Bool)
    (desired : List Collaborator) :
    (forTrace (collabStep env org repo current dryRun) desired).2 =
      if dryRun then []
      else (desired.filter (needsCollabCall current)).map
        (fun c => RCall.addCollaborator org repo c.username c.role) := by
  induction desired with
  | nil => cases dryRun <;> rfl
  | cons c cs ih =>
      unfold forTrace
      cases dryRun with
      | true =>
          simp only [if_true] at ih ⊢
          simp [collabStep_calls_dry, ih]
      | false =>
          simp only [if_false] at ih ⊢
          rw [List.filter_cons]
          by_cases hc : needsCollabCall current c
          · simp [collabStep_calls_live, hc, ih]
          · simp [collabStep_calls_live, hc, ih]

/-- The full call trace of `updateRepositoryCollaborators`: the list read,
followed (in live mode) by exactly the needed set-permission calls against
the effectively fetched collaborator list. -/
theorem updateRepositoryCollaborators_calls {V : Type} (env : Env V)
    (org repo : String) (desired : List Collaborator) (dryRun : Bool) :
    (updateRepositoryCollaborators env org repo desired dryRun).2 =
      RCall.listCollaborators org repo ::
        (if dryRun then []
         else (desired.filter
            (needsCollabCall (currentCollabsOf env org repo))).map
          (fun c => RCall.addCollaborator org repo c.username c.role)) := by
  unfold updateRepositoryCollaborators getRepositoryCollaborators
    currentCollabsOf
  cases h : env.collabsGet org repo with
  | ok data => simp [forTrace_collab_calls]
  | error e => simp [forTrace_collab_calls]

/-- C5: collaborator reconciliation issues the list read followed, in
live mode, by exactly one set-permission call per desired entry that is
absent (Add) or present with a different role (Update) — entries present with
the same role get no call — never issues a removal call, and the calls it
issues do not depend on the success or failure of any mutation, so a failure
on one entry does not block subsequent entries; remotely present
collaborators absent from the desired list are never named in any mutating
call. -/
theorem collaborator_no_removal {V : Type} (env : Env V) (org repo : String)
    (desired : List Collaborator) (dryRun : Bool) :
    ((updateRepositoryCollaborators env org repo desired dryRun).2 =
      RCall.listCollaborators org repo ::
        (if dryRun then []
         else (desired.filter
            (needsCollabCall (currentCollabsOf env org repo))).map
          (fun c => RCall.addCollaborator org repo c.username c.role))) ∧
    ((updateRepositoryCollaborators env org repo desired dryRun).2.filter
        isRemoval = []) ∧
    (∀ m : RCall V → Bool,
      (updateRepositoryCollaborators { env with mutOk := m } org repo desired
          dryRun).2 =
        (updateRepositoryCollaborators env org repo desired dryRun).2) := by
  have h := updateRepositoryCollaborators_calls env org repo desired dryRun
  refine ⟨h, ?_, ?_⟩
  · rw [h]
    cases dryRun with
    | true => rfl
    | false =>
        simp only [Bool.false_eq_true, if_false]
        rw [List.filter_cons]
        simp [isRemoval, List.filter_map, Function.comp]
  · intro m
    rw [updateRepositoryCollaborators_calls,
      updateRepositoryCollaborators_calls]
    rfl

/-- Counterexample for C7: the role `banana` is outside the documented enum,
yet the engine passes it verbatim to the set-permission call — no
configuration-error handling exists. -/
theorem role_enum_cex :
    "banana" ∉ validRoles ∧
      RCall.addCollaborator "org" "svc-a" "bob" "banana" ∈
        (updateRepositoryCollaborators envA "org" "svc-a"
          [⟨"bob", "banana"⟩] false).2 := by
  constructor
  · decide
  · decide

/-- C7 (amended): the engine performs no validation of the collaborator
role: every set-permission call carries verbatim the username and role of
some entry of the desired list, whatever string the role is. -/
theorem role_passthrough {V : Type} (env : Env V) (org repo : String)
    (desired : List Collaborator) (dryRun : Bool) (o r u p : String)
    (hmem : RCall.addCollaborator o r u p ∈
      (updateRepositoryCollaborators env org repo desired dryRun).2) :
    o = org ∧ r = repo ∧ (⟨u, p⟩ : Collaborator) ∈ desired := by
  rw [updateRepositoryCollaborators_calls] at hmem
  cases dryRun with
  | true =>
      simp only [if_true] at hmem
      rw [List.mem_cons] at hmem
      cases hmem with
      | inl h => exact RCall.noConfusion h
      | inr h => simp at h
  | false =>
      simp only [Bool.false_eq_true, if_false] at hmem
      rw [List.mem_cons] at hmem
      cases hmem with
      | inl h => exact RCall.noConfusion h
      | inr h =>
          rw [List.mem_map] at h
          obtain ⟨c, hcf, hceq⟩ := h
          have hcd : c ∈ desired := List.mem_of_mem_filter hcf
          cases c with
          | mk cu cr =>
              injection hceq with h1 h2 h3 h4
              simp only [] at h3 h4
              rw [h3, h4] at hcd
              exact ⟨h1.symm, h2.symm, hcd⟩

/-- Witness for C7's amended theorem at a concrete input. -/
theorem role_passthrough_witness :
    "org" = "org" ∧ "svc-a" = "svc-a" ∧
      (⟨"bob", "banana"⟩ : Collaborator) ∈
        [(⟨"bob", "banana"⟩ : Collaborator)] :=
  role_passthrough envA "org" "svc-a" [⟨"bob", "banana"⟩] false
    "org" "svc-a" "bob" "banana" (by decide)

/-- The labels `shouldProcessRepository` compares against are `labelsOf`. -/
theorem getRepositoryLabels_result {V : Type} (env : Env V)
    (org repo : String) :
    (getRepositoryLabels env org repo).2.2 = labelsOf env org repo := by
  unfold getRepositoryLabels labelsOf
  cases env.labels org repo <;> rfl

/-- The label clause decides exactly `labelPass`, fetching only when a label
filter is set. -/
theorem checkLabelFilter_spec {V : Type} (env : Env V) (repo : Repo)
    (f : Filters) :
    (checkLabelFilter env repo f).2.2 = Except.ok (labelPass env f repo) ∧
      (checkLabelFilter env repo f).2.1 =
        (if truthyS f.label then
          [RCall.listLabelsForRepo repo.owner repo.name] else []) := by
  unfold checkLabelFilter labelPass
  cases ht : truthyS f.label with
  | false => simp [ht]
  | true =>
      simp only [ht, if_true, Bool.not_true, Bool.false_or]
      have hl := getRepositoryLabels_result env repo.owner repo.name
      cases hc : (getRepositoryLabels env repo.owner repo.name).2.2.contains
          (f.label.getD "") with
      | false =>
          rw [hl] at hc
          constructor
          · simp only [hl, hc]
            simp
          · unfold getRepositoryLabels
            cases env.labels repo.owner repo.name <;> simp
      | true =>
          rw [hl] at hc
          constructor
          · simp only [hl, hc]
            simp
          · unfold getRepositoryLabels
            cases env.labels repo.owner repo.name <;> simp

/-- The language clause decides `languagePass && labelPass`, short-circuiting
the label fetch when the language mismatches. -/
theorem checkLanguageFilter_spec {V : Type} (env : Env V) (repo : Repo)
    (f : Filters) :
    (checkLanguageFilter env repo f).2.2 =
        Except.ok (languagePass f repo && labelPass env f repo) ∧
      (checkLanguageFilter env repo f).2.1 =
        (if languagePass f repo then (checkLabelFilter env repo f).2.1
         else []) := by
  unfold checkLanguageFilter languagePass
  cases ht : truthyS f.language with
  | false => simp [ht, (checkLabelFilter_spec env repo f).1]
  | true =>
      simp only [ht, Bool.not_true, Bool.false_or, Bool.true_and]
      cases hm : (!langFalsy repo.language &&
          ((repo.language.getD "").toLower ==
            (f.language.getD "").toLower)) with
      | false =>
          have : (langFalsy repo.language ||
              !((repo.language.getD "").toLower ==
                (f.language.getD "").toLower)) = true := by
            cases h1 : langFalsy repo.language <;>
              cases h2 : ((repo.language.getD "").toLower ==
                (f.language.getD "").toLower) <;>
              simp [h1, h2] at hm ⊢
          simp [this, hm]
      | true =>
          have : (langFalsy repo.language ||
              !((repo.language.getD "").toLower ==
                (f.language.getD "").toLower)) = false := by
            cases h1 : langFalsy repo.language <;>
              cases h2 : ((repo.language.getD "").toLower ==
                (f.language.getD "").toLower) <;>
              simp [h1, h2] at hm ⊢
          simp [this, hm, (checkLabelFilter_spec env repo f).1]

/-- The name clause (given a compiling regex) decides
`namePass && languagePass && labelPass`. -/
theorem checkNameFilter_spec {V : Type} (env : Env V) (repo : Repo)
    (f : Filters) (test : String → Bool)
    (hre : truthyS f.namePattern = true →
      env.regexCompile (f.namePattern.getD "") = some test) :
    (checkNameFilter env repo f).2.2 =
        Except.ok (namePass test f repo && languagePass f repo &&
          labelPass env f repo) ∧
      (checkNameFilter env repo f).2.1 =
        (if namePass test f repo && languagePass f repo then
          (checkLabelFilter env repo f).2.1 else []) := by
  unfold checkNameFilter namePass
  cases ht : truthyS f.namePattern with
  | false =>
      simp only [ht, Bool.false_eq_true, if_false, Bool.not_false,
        Bool.true_or, Bool.true_and]
      exact ⟨(checkLanguageFilter_spec env repo f).1,
        (checkLanguageFilter_spec env repo f).2⟩
  | true =>
      rw [hre ht]
      simp only [ht, Bool.not_true, Bool.false_or]
      cases htest : test repo.name with
      | false => simp [htest]
      | true =>
          simp only [htest, Bool.not_true, Bool.false_eq_true, if_false,
          Bool.true_and]
          exact ⟨(checkLanguageFilter_spec env repo f).1,
            (checkLanguageFilter_spec env repo f).2⟩

/-- C6: with at least one populated filter field (and a compiling name
pattern), the filter decision is non-throwing and grants processing iff the
repository is not archived and every populated predicate passes — name regex,
case-insensitive language (no language never matches), and label membership
in the effectively fetched set (a label-fetch failure gives the empty set, so
the repository does not match, non-fatally); the label fetch call is issued
only when a label filter is present. -/
theorem filter_and_semantics {V : Type} (env : Env V) (repo : Repo)
    (f : Filters) (test : String → Bool)
    (hpop : (truthyS f.namePattern || truthyS f.label ||
      truthyS f.language) = true)
    (hre : truthyS f.namePattern = true →
      env.regexCompile (f.namePattern.getD "") = some test) :
    ((shouldProcessRepository env repo f).2.2 =
      Except.ok (!repo.archived && namePass test f repo &&
        languagePass f repo && labelPass env f repo)) ∧
    (truthyS f.label = false →
      (shouldProcessRepository env repo f).2.1 = []) := by
  unfold shouldProcessRepository
  have hcond : (!truthyS f.namePattern && !truthyS f.label &&
      !truthyS f.language) = false := by
    cases h1 : truthyS f.namePattern <;> cases h2 : truthyS f.label <;>
      cases h3 : truthyS f.language <;> simp [h1, h2, h3] at hpop ⊢
  simp only [hcond, Bool.false_eq_true, if_false]
  cases ha : repo.archived with
  | true => simp [ha]
  | false =>
      simp only [ha, Bool.not_false, Bool.true_and, Bool.false_eq_true,
        if_false]
      constructor
      · rw [(checkNameFilter_spec env repo f test hre).1]
      · intro hlb
        rw [(checkNameFilter_spec env repo f test hre).2,
          (checkLabelFilter_spec env repo f).2]
        simp [hlb]

/-- Witness for C6: `envA`, a name-pattern plus language filter on a matching
repository; no label filter, hence no label fetch. -/
theorem filter_and_semantics_witness :
    ((shouldProcessRepository envA ⟨"svc-a", some "Go", false, "org"⟩
        ⟨some "svc", none, some "Go"⟩).2.2 =
      Except.ok (!(⟨"svc-a", some "Go", false, "org"⟩ : Repo).archived &&
        namePass (fun _ => true) ⟨some "svc", none, some "Go"⟩
          ⟨"svc-a", some "Go", false, "org"⟩ &&
        languagePass ⟨some "svc", none, some "Go"⟩
          ⟨"svc-a", some "Go", false, "org"⟩ &&
        labelPass envA ⟨some "svc", none, some "Go"⟩
          ⟨"svc-a", some "Go", false, "org"⟩)) ∧
    (truthyS (⟨some "svc", none, some "Go"⟩ : Filters).label = false →
      (shouldProcessRepository envA ⟨"svc-a", some "Go", false, "org"⟩
        ⟨some "svc", none, some "Go"⟩).2.1 = []) :=
  filter_and_semantics envA ⟨"svc-a", some "Go", false, "org"⟩
    ⟨some "svc", none, some "Go"⟩ (fun _ => true) (by decide) (fun _ => rfl)

/-- Branch protection: the dry-run calls are the non-mutating live calls
(none), and each live mutation has a dry-run preview. -/
theorem updateBranchProtection_dry {V : Type} (env : Env V)
    (org repo branch : String) (rule : V) :
    (updateBranchProtection env org repo branch rule true).2 =
        (updateBranchProtection env org repo branch rule false).2.filter
          (fun c => !isMutating c) ∧
      ((updateBranchProtection env org repo branch rule false).2.countP
          (fun c => isMutating c) ≤
        (updateBranchProtection env org repo branch rule true).1.countP
          isPreview) := by
  unfold updateBranchProtection
  by_cases hok : env.mutOk (RCall.updateBranchProtection org repo branch
      rule) <;> simp [hok, isMutating, isPreview]

/-- Collaborator step: dry-run issues no call; each live call has a preview. -/
theorem collabStep_dry {V : Type} (env : Env V) (org repo : String)
    (current : List Collaborator) (c : Collaborator) :
    (collabStep env org repo current true c).2 =
        (collabStep env org repo current false c).2.filter
          (fun x => !isMutating x) ∧
      ((collabStep env org repo current false c).2.countP
          (fun x => isMutating x) ≤
        (collabStep env org repo current true c).1.countP isPreview) := by
  unfold collabStep
  cases hx : (current.map Collaborator.username).contains c.username with
  | true =>
      simp only [hx, Bool.not_true, Bool.false_eq_true, if_false]
      cases hf : current.find? (fun x => x.username == c.username) with
      | none => simp
      | some cur =>
          by_cases h2 : cur.role != c.role
          · by_cases hok : env.mutOk (RCall.addCollaborator org repo
                c.username c.role) <;>
              simp [h2, hok, isMutating, isPreview]
          · simp [h2]
  | false =>
      simp only [hx, Bool.not_false, if_true]
      by_cases hok : env.mutOk (RCall.addCollaborator org repo
          c.username c.role) <;> simp [hok, isMutating, isPreview]

/-- Lifting the dry-run relation through a sequential loop. -/
theorem forTrace_dry {V α : Type}
    (bodyDry bodyLive : α → List Log × List (RCall V))
    (h : ∀ a, (bodyDry a).2 =
        (bodyLive a).2.filter (fun c => !isMutating c) ∧
      ((bodyLive a).2.countP (fun c => isMutating c) ≤
        (bodyDry a).1.countP isPreview))
    (l : List α) :
    (forTrace bodyDry l).2 =
        (forTrace bodyLive l).2.filter (fun c => !isMutating c) ∧
      ((forTrace bodyLive l).2.countP (fun c => isMutating c) ≤
        (forTrace bodyDry l).1.countP isPreview) := by
  induction l with
  | nil => simp [forTrace]
  | cons x xs ih =>
      simp only [forTrace]
      constructor
      · rw [List.filter_append, (h x).1, ih.1]
      · rw [List.countP_append, List.countP_append]
        exact Nat.add_le_add (h x).2 ih.2


/-- Evaluation of `isMutating` on the read calls. -/
theorem isMutating_reads {V : Type} (o r p : String) (n : Nat) :
    isMutating (RCall.listForOrg (V := V) o n) = false ∧
      isMutating (RCall.reposGet (V := V) o r) = false ∧
      isMutating (RCall.listCollaborators (V := V) o r) = false ∧
      isMutating (RCall.getContent (V := V) o r p) = false ∧
      isMutating (RCall.listLabelsForRepo (V := V) o r) = false :=
  ⟨rfl, rfl, rfl, rfl, rfl⟩

/-- Filtering for non-mutating calls keeps a leading read call. -/
theorem filter_nonmut_cons_read {V : Type} (c : RCall V)
    (hc : isMutating c = false) (l : List (RCall V)) :
    (c :: l).filter (fun x => !isMutating x) =
      c :: l.filter (fun x => !isMutating x) := by
  simp [List.filter_cons, hc]

/-- A leading read call contributes nothing to the mutation count. -/
theorem countP_mut_cons_read {V : Type} (c : RCall V)
    (hc : isMutating c = false) (l : List (RCall V)) :
    (c :: l).countP (fun x => isMutating x) =
      l.countP (fun x => isMutating x) := by
  simp [List.countP_cons, hc]

/-- The collaborator reconciler satisfies the dry-run relation. -/
theorem updateRepositoryCollaborators_dry {V : Type} (env : Env V)
    (org repo : String) (desired : List Collaborator) :
    (updateRepositoryCollaborators env org repo desired true).2 =
        (updateRepositoryCollaborators env org repo desired false).2.filter
          (fun c => !isMutating c) ∧
      ((updateRepositoryCollaborators env org repo desired false).2.countP
          (fun c => isMutating c) ≤
        (updateRepositoryCollaborators env org repo desired true).1.countP
          isPreview) := by
  unfold updateRepositoryCollaborators getRepositoryCollaborators
  cases h : env.collabsGet org repo with
  | ok data =>
      have hft := forTrace_dry (collabStep env org repo data true)
        (collabStep env org repo data false)
        (collabStep_dry env org repo data) desired
      constructor
      · simp only [List.nil_append, List.cons_append]
        rw [hft.1,
          filter_nonmut_cons_read (RCall.listCollaborators org repo) rfl]
      · simp only [List.nil_append, List.cons_append, List.countP_append]
        exact hft.2
  | error e =>
      have hft := forTrace_dry (collabStep env org repo [] true)
        (collabStep env org repo [] false)
        (collabStep_dry env org repo []) desired
      constructor
      · simp only [List.nil_append, List.cons_append]
        rw [hft.1,
          filter_nonmut_cons_read (RCall.listCollaborators org repo) rfl]
      · simp only [List.nil_append, List.cons_append, List.countP_append]
        refine le_trans hft.2 ?_
        rw [List.countP_cons]
        simp [isPreview]

/-- The repo-settings applier satisfies the dry-run relation. -/
theorem updateRepositorySettings_dry {V : Type} [DecidableEq V] (env : Env V)
    (org repo : String) (s : SyncSettings V) :
    (updateRepositorySettings env org repo s true).2 =
        (updateRepositorySettings env org repo s false).2.filter
          (fun c => !isMutating c) ∧
      ((updateRepositorySettings env org repo s false).2.countP
          (fun c => isMutating c) ≤
        (updateRepositorySettings env org repo s true).1.countP
          isPreview) := by
  unfold updateRepositorySettings getRepositorySettings
  cases hs : s.repository with
  | none => simp
  | some desired =>
      cases h : env.settingsGet org repo with
      | error e => simp [isMutating]
      | ok cur =>
          by_cases hde : (getSettingsDiff cur desired).isEmpty
          · simp [hde, isMutating]
          · by_cases hok : env.mutOk (RCall.reposUpdate org repo
                (getSettingsDiff cur desired)) <;>
              simp [hde, hok, isMutating, isPreview]

/-- The file upsert satisfies the dry-run relation. -/
theorem updateFileContent_dry {V : Type} (env : Env V)
    (org repo path content : String) (sha : Option String) :
    (updateFileContent env org repo path content sha true).2 =
        (updateFileContent env org repo path content sha false).2.filter
          (fun c => !isMutating c) ∧
      ((updateFileContent env org repo path content sha false).2.countP
          (fun c => isMutating c) ≤
        (updateFileContent env org repo path content sha true).1.countP
          isPreview) := by
  unfold updateFileContent
  cases sha with
  | none =>
      by_cases hok : env.mutOk (RCall.createOrUpdateFileContents org repo
          path s!"Add {path}" content none) <;>
        simp [hok, isMutating, isPreview]
  | some sh =>
      by_cases hok : env.mutOk (RCall.createOrUpdateFileContents org repo
          path s!"Update {path}" content (some sh)) <;>
        simp [hok, isMutating, isPreview]

/-- The per-file sync satisfies the dry-run relation. -/
theorem syncFileContent_dry {V : Type} (env : Env V) (org repo : String)
    (fileSync : FileSyncSpec) :
    (syncFileContent env org repo fileSync true).2 =
        (syncFileContent env org repo fileSync false).2.filter
          (fun c => !isMutating c) ∧
      ((syncFileContent env org repo fileSync false).2.countP
          (fun c => isMutating c) ≤
        (syncFileContent env org repo fileSync true).1.countP isPreview) := by
  unfold syncFileContent getFileContent
  cases hl : env.localRead fileSync.localPath with
  | error e => simp
  | ok localContent =>
      cases hc : env.contentGet org repo fileSync.path with
      | file content sh =>
          by_cases heq : (content != localContent) = true
          · have hu := updateFileContent_dry env org repo fileSync.path
              localContent (some sh)
            simp only [heq, if_true]
            constructor
            · simp only [List.cons_append, List.nil_append]
              rw [hu.1, filter_nonmut_cons_read
                (RCall.getContent org repo fileSync.path) rfl]
            · simp only [List.cons_append, List.nil_append]
              rw [countP_mut_cons_read
                (RCall.getContent org repo fileSync.path) rfl]
              exact hu.2
          · simp [heq, isMutating]
      | notFile =>
          have hu := updateFileContent_dry env org repo fileSync.path
            localContent none
          constructor
          · simp only [List.cons_append, List.nil_append]
            rw [hu.1, filter_nonmut_cons_read
              (RCall.getContent org repo fileSync.path) rfl]
          · simp only [List.cons_append, List.nil_append]
            rw [countP_mut_cons_read
              (RCall.getContent org repo fileSync.path) rfl]
            exact hu.2
      | notFound =>
          have hu := updateFileContent_dry env org repo fileSync.path
            localContent none
          constructor
          · simp only [List.cons_append, List.nil_append]
            rw [hu.1, filter_nonmut_cons_read
              (RCall.getContent org repo fileSync.path) rfl]
          · simp only [List.cons_append, List.nil_append]
            rw [countP_mut_cons_read
              (RCall.getContent org repo fileSync.path) rfl]
            exact hu.2
      | failure => simp [isMutating]

/-- The collaborators block satisfies the dry-run relation. -/
theorem collabSection_dry {V : Type} (env : Env V) (org name : String)
    (oc : Option (List Collaborator)) :
    (collabSection env org name oc true).2 =
        (collabSection env org name oc false).2.filter
          (fun c => !isMutating c) ∧
      ((collabSection env org name oc false).2.countP
          (fun c => isMutating c) ≤
        (collabSection env org name oc true).1.countP isPreview) := by
  cases oc with
  | none => simp [collabSection]
  | some desired =>
      have h := updateRepositoryCollaborators_dry env org name desired
      simp only [collabSection]
      refine ⟨h.1, ?_⟩
      rw [List.countP_append]
      exact le_trans h.2 (Nat.le_add_right _ _)

/-- The branch-protection block satisfies the dry-run relation. -/
theorem bpSection_dry {V : Type} (env : Env V) (org name : String)
    (obp : Option (List (String × V))) :
    (bpSection env org name obp true).2 =
        (bpSection env org name obp false).2.filter
          (fun c => !isMutating c) ∧
      ((bpSection env org name obp false).2.countP
          (fun c => isMutating c) ≤
        (bpSection env org name obp true).1.countP isPreview) := by
  cases obp with
  | none => simp [bpSection]
  | some bp =>
      have h := forTrace_dry
        (fun (p : String × V) =>
          updateBranchProtection env org name p.1 p.2 true)
        (fun (p : String × V) =>
          updateBranchProtection env org name p.1 p.2 false)
        (fun p => updateBranchProtection_dry env org name p.1 p.2) bp
      simp only [bpSection]
      refine ⟨h.1, ?_⟩
      rw [List.countP_append]
      exact le_trans h.2 (Nat.le_add_right _ _)

/-- The files block satisfies the dry-run relation. -/
theorem filesSection_dry {V : Type} (env : Env V) (org name : String)
    (ofl : Option (List FileSyncSpec)) :
    (filesSection env org name ofl true).2 =
        (filesSection env org name ofl false).2.filter
          (fun c => !isMutating c) ∧
      ((filesSection env org name ofl false).2.countP
          (fun c => isMutating c) ≤
        (filesSection env org name ofl true).1.countP isPreview) := by
  cases ofl with
  | none => simp [filesSection]
  | some fl =>
      have h := forTrace_dry
        (fun spec => syncFileContent env org name spec true)
        (fun spec => syncFileContent env org name spec false)
        (fun spec => syncFileContent_dry env org name spec) fl
      simp only [filesSection]
      refine ⟨h.1, ?_⟩
      rw [List.countP_append]
      exact le_trans h.2 (Nat.le_add_right _ _)

/-- The filter issues only read calls. -/
theorem shouldProcess_calls_nonmut {V : Type} (env : Env V) (repo : Repo)
    (f : Filters) :
    (shouldProcessRepository env repo f).2.1.filter
        (fun c => !isMutating c) =
      (shouldProcessRepository env repo f).2.1 ∧
    (shouldProcessRepository env repo f).2.1.countP
        (fun c => isMutating c) = 0 := by
  unfold shouldProcessRepository checkNameFilter checkLanguageFilter
    checkLabelFilter getRepositoryLabels
  repeat' split
  all_goals try simp [isMutating]
  all_goals (split <;> simp [isMutating])

/-- The enumerator issues only read calls. -/
theorem getRepositoriesAux_nonmut {V : Type} (env : Env V) (org : String) :
    ∀ (fuel page : Nat) (acc : List Repo),
      (getRepositoriesAux env org fuel page acc).1.filter
          (fun c => !isMutating c) =
        (getRepositoriesAux env org fuel page acc).1 ∧
      (getRepositoriesAux env org fuel page acc).1.countP
          (fun c => isMutating c) = 0 := by
  intro fuel
  induction fuel with
  | zero => intro page acc; simp [getRepositoriesAux]
  | succ n ih =>
      intro page acc
      unfold getRepositoriesAux
      cases h : env.pages page with
      | error e => simp [isMutating]
      | ok data =>
          cases data with
          | nil => simp [isMutating]
          | cons d ds =>
              simp only []
              constructor
              · rw [filter_nonmut_cons_read (RCall.listForOrg org page) rfl,
                  (ih (page + 1) (acc ++ d :: ds)).1]
              · rw [countP_mut_cons_read (RCall.listForOrg org page) rfl]
                exact (ih (page + 1) (acc ++ d :: ds)).2

/-- The per-repository body satisfies the dry-run relation, and its filter
decision does not depend on the mode. -/
theorem processRepo_dry {V : Type} [DecidableEq V] (env : Env V)
    (org : String) (s : SyncSettings V) (f : Filters) (repo : Repo) :
    (processRepo env org s f true repo).2.1 =
        (processRepo env org s f false repo).2.1.filter
          (fun c => !isMutating c) ∧
      ((processRepo env org s f false repo).2.1.countP
          (fun c => isMutating c) ≤
        (processRepo env org s f true repo).1.countP isPreview) ∧
      (processRepo env org s f true repo).2.2 =
        (processRepo env org s f false repo).2.2 := by
  have hd := shouldProcess_calls_nonmut env repo f
  cases hdd : (shouldProcessRepository env repo f).2.2 with
  | error e =>
      simp only [processRepo, hdd]
      exact ⟨hd.1.symm, by rw [hd.2]; exact Nat.zero_le _, trivial⟩
  | ok b =>
      cases b with
      | false =>
          simp only [processRepo, hdd]
          exact ⟨hd.1.symm, by rw [hd.2]; exact Nat.zero_le _, trivial⟩
      | true =>
          have h1 := updateRepositorySettings_dry env org repo.name s
          have h2 := collabSection_dry env org repo.name s.collaborators
          have h3 := bpSection_dry env org repo.name s.branch_protection
          have h4 := filesSection_dry env org repo.name s.files
          simp only [processRepo, hdd]
          refine ⟨?_, ?_, trivial⟩
          · simp only [List.filter_append]
            rw [hd.1, ← h1.1, ← h2.1, ← h3.1, ← h4.1]
          · simp only [List.countP_append, hd.2, Nat.zero_add]
            have hsum := Nat.add_le_add h1.2 (Nat.add_le_add h2.2
              (Nat.add_le_add h3.2 h4.2))
            omega

/-- The repository loop satisfies the dry-run relation, with identical
control flow and counters in both modes. -/
theorem syncLoop_dry {V : Type} [DecidableEq V] (env : Env V) (org : String)
    (s : SyncSettings V) (f : Filters) :
    ∀ (repos : List Repo) (p sk : Nat),
      (syncLoop env org s f true repos p sk).2.1 =
          (syncLoop env org s f false repos p sk).2.1.filter
            (fun c => !isMutating c) ∧
        ((syncLoop env org s f false repos p sk).2.1.countP
            (fun c => isMutating c) ≤
          (syncLoop env org s f true repos p sk).1.countP isPreview) ∧
        (syncLoop env org s f true repos p sk).2.2 =
          (syncLoop env org s f false repos p sk).2.2 := by
  intro repos
  induction repos with
  | nil => intro p sk; simp [syncLoop]
  | cons repo rest ih =>
      intro p sk
      have hp := processRepo_dry env org s f repo
      cases hdl : (processRepo env org s f false repo).2.2 with
      | error e =>
          have hdt := hp.2.2.trans hdl
          simp only [syncLoop, hdl, hdt]
          exact ⟨hp.1, hp.2.1, trivial⟩
      | ok b =>
          have hdt := hp.2.2.trans hdl
          cases b with
          | true =>
              simp only [syncLoop, hdl, hdt]
              refine ⟨?_, ?_, (ih (p + 1) sk).2.2⟩
              · rw [List.filter_append, hp.1, (ih (p + 1) sk).1]
              · rw [List.countP_append, List.countP_append]
                exact Nat.add_le_add hp.2.1 (ih (p + 1) sk).2.1
          | false =>
              simp only [syncLoop, hdl, hdt]
              refine ⟨?_, ?_, (ih p (sk + 1)).2.2⟩
              · rw [List.filter_append, hp.1, (ih p (sk + 1)).1]
              · rw [List.countP_append, List.countP_append]
                exact Nat.add_le_add hp.2.1 (ih p (sk + 1)).2.1

/-- Keeping only non-mutating calls leaves nothing mutating. -/
theorem filter_mut_filter_nonmut {V : Type} (l : List (RCall V)) :
    (l.filter (fun c => !isMutating c)).filter (fun c => isMutating c) =
      [] := by
  induction l with
  | nil => rfl
  | cons c cs ih =>
      rw [List.filter_cons]
      cases hm : isMutating c <;> simp [hm, ih]

/-- C4: in dry-run mode no mutating remote call is issued; the dry-run
call trace is exactly the non-mutating (read) part of the live trace, so all
reads are still performed with the same arguments; and every live-mode
mutation is matched by at least one dry-run preview log. -/
theorem dry_run_purity {V : Type} [DecidableEq V] (env : Env V)
    (org : String) (s : SyncSettings V) (f : Filters) (fuel : Nat) :
    ((syncSettings env org s f true fuel).2.1.filter
        (fun c => isMutating c) = []) ∧
      ((syncSettings env org s f true fuel).2.1 =
        (syncSettings env org s f false fuel).2.1.filter
          (fun c => !isMutating c)) ∧
      ((syncSettings env org s f false fuel).2.1.countP
          (fun c => isMutating c) ≤
        (syncSettings env org s f true fuel).1.countP isPreview) := by
  have hg : (getRepositories env org fuel).1.filter
        (fun c => !isMutating c) = (getRepositories env org fuel).1 ∧
      (getRepositories env org fuel).1.countP (fun c => isMutating c) = 0 :=
    getRepositoriesAux_nonmut env org fuel 1 []
  have key :
      ((syncSettings env org s f true fuel).2.1 =
        (syncSettings env org s f false fuel).2.1.filter
          (fun c => !isMutating c)) ∧
      ((syncSettings env org s f false fuel).2.1.countP
          (fun c => isMutating c) ≤
        (syncSettings env org s f true fuel).1.countP isPreview) := by
    cases he : (getRepositories env org fuel).2 with
    | error e =>
        simp only [syncSettings, he]
        exact ⟨hg.1.symm, by rw [hg.2]; exact Nat.zero_le _⟩
    | ok repos =>
        have hloop := syncLoop_dry env org s f repos 0 0
        cases hr : (syncLoop env org s f false repos 0 0).2.2 with
        | error e =>
            have hrt := hloop.2.2.trans hr
            simp only [syncSettings, he, hr, hrt]
            constructor
            · rw [List.filter_append, hg.1, hloop.1]
            · simp only [List.countP_append]
              rw [hg.2, Nat.zero_add]
              refine le_trans hloop.2.1 ?_
              omega
        | ok pr =>
            have hrt := hloop.2.2.trans hr
            cases pr with
            | mk p sk =>
                simp only [syncSettings, he, hr, hrt]
                constructor
                · rw [List.filter_append, hg.1, hloop.1]
                · simp only [List.countP_append]
                  rw [hg.2, Nat.zero_add]
                  refine le_trans hloop.2.1 ?_
                  omega
  refine ⟨?_, key.1, key.2⟩
  rw [key.1]
  exact filter_mut_filter_nonmut _

/-- The only way the filter can throw is an invalid (non-compiling) name
pattern. -/
theorem shouldProcess_error_regex {V : Type} (env : Env V) (repo : Repo)
    (f : Filters) (e : Unit)
    (h : (shouldProcessRepository env repo f).2.2 = Except.error e) :
    truthyS f.namePattern = true ∧
      env.regexCompile (f.namePattern.getD "") = none := by
  unfold shouldProcessRepository at h
  split at h
  · exact Except.noConfusion h
  · split at h
    · exact Except.noConfusion h
    · unfold checkNameFilter at h
      split at h
      · rename_i ht
        split at h
        · rename_i heq
          exact ⟨ht, heq⟩
        · rename_i t heq
          split at h
          · exact Except.noConfusion h
          · rw [(checkLanguageFilter_spec env repo f).1] at h
            exact Except.noConfusion h
      · rw [(checkLanguageFilter_spec env repo f).1] at h
        exact Except.noConfusion h

/-- With a compiling name pattern the filter decision is total and equals
`filterPasses`. -/
theorem shouldProcess_ok {V : Type} (env : Env V) (repo : Repo) (f : Filters)
    (hre : truthyS f.namePattern = true →
      ¬ env.regexCompile (f.namePattern.getD "") = none) :
    (shouldProcessRepository env repo f).2.2 =
      Except.ok (filterPasses env f repo) := by
  cases hd : (shouldProcessRepository env repo f).2.2 with
  | ok b => unfold filterPasses; rw [hd]
  | error e =>
      obtain ⟨ht, hn⟩ := shouldProcess_error_regex env repo f e hd
      exact absurd hn (hre ht)

/-- With a total filter, the repository loop always completes, and the
counters tally exactly the filter decisions — independent of every other
oracle outcome. -/
theorem syncLoop_counts {V : Type} [DecidableEq V] (env : Env V)
    (org : String) (s : SyncSettings V) (f : Filters) (dryRun : Bool)
    (hok : ∀ repo, (shouldProcessRepository env repo f).2.2 =
      Except.ok (filterPasses env f repo)) :
    ∀ (repos : List Repo) (p sk : Nat),
      (syncLoop env org s f dryRun repos p sk).2.2 =
        Except.ok (p + repos.countP (filterPasses env f),
          sk + repos.countP (fun r => !filterPasses env f r)) := by
  intro repos
  induction repos with
  | nil => intro p sk; simp [syncLoop]
  | cons repo rest ih =>
      intro p sk
      cases hb : filterPasses env f repo with
      | true =>
          have hpr : (processRepo env org s f dryRun repo).2.2 =
              Except.ok true := by
            have hd := hok repo
            rw [hb] at hd
            simp only [processRepo, hd]
          simp only [syncLoop, hpr]
          rw [ih (p + 1) sk]
          simp [List.countP_cons, hb, Prod.ext_iff]
          omega
      | false =>
          have hpr : (processRepo env org s f dryRun repo).2.2 =
              Except.ok false := by
            have hd := hok repo
            rw [hb] at hd
            simp only [processRepo, hd]
          simp only [syncLoop, hpr]
          rw [ih p (sk + 1)]
          simp [List.countP_cons, hb, Prod.ext_iff]
          omega

/-- C3 (amended): when the enumerator succeeds and the name pattern (if
set) compiles, the run always completes with a summary — whatever the outcome
of every label fetch, settings fetch/update, collaborator list/add,
branch-protection write, or file read/fetch/write — and the counters tally
the filter decisions.  (An invalid name-pattern regex, by contrast, throws
inside filter evaluation and is fatal; see the counterexample.) -/
theorem failure_isolation {V : Type} [DecidableEq V] (env : Env V)
    (org : String) (s : SyncSettings V) (f : Filters) (dryRun : Bool)
    (fuel : Nat) (repos : List Repo)
    (henum : (getRepositories env org fuel).2 = Except.ok repos)
    (hre : truthyS f.namePattern = true →
      ¬ env.regexCompile (f.namePattern.getD "") = none) :
    (syncSettings env org s f dryRun fuel).2.2 =
      RunResult.completed repos.length
        (repos.countP (filterPasses env f))
        (repos.countP (fun r => !filterPasses env f r)) := by
  have hok : ∀ repo, (shouldProcessRepository env repo f).2.2 =
      Except.ok (filterPasses env f repo) :=
    fun repo => shouldProcess_ok env repo f hre
  have hloop := syncLoop_counts env org s f dryRun hok repos 0 0
  simp only [syncSettings, henum, hloop, Nat.zero_add]

/-- Counterexample for C3: with an invalid name-pattern regex, the enumerator
succeeds and yet the run ends in the fatal `process.exit(1)` path — a
filter-evaluation failure is not caught at the component boundary, so the
Enumerator is not the only component whose failure is fatal. -/
theorem filter_failure_fatal_cex :
    (getRepositories envBadRegex "org" 3).2 =
        Except.ok [⟨"svc-a", some "Go", false, "org"⟩] ∧
      (syncSettings envBadRegex "org" ⟨none, none, none, none⟩
          ⟨some "(", none, none⟩ false 3).2.2 = RunResult.fatalExit := by
  constructor
  · rfl
  · rfl

/-- Witness for C3's amended theorem: every domain read/write fails, yet the
run completes with the summary. -/
theorem failure_isolation_witness :
    (syncSettings envFail "org" exSettingsAll ⟨some "svc", none, none⟩
        false 3).2.2 =
      RunResult.completed
        ([(⟨"svc-a", some "Go", false, "org"⟩ : Repo)]).length
        (([(⟨"svc-a", some "Go", false, "org"⟩ : Repo)]).countP
          (filterPasses envFail ⟨some "svc", none, none⟩))
        (([(⟨"svc-a", some "Go", false, "org"⟩ : Repo)]).countP
          (fun r => !filterPasses envFail ⟨some "svc", none, none⟩ r)) :=
  failure_isolation envFail "org" exSettingsAll ⟨some "svc", none, none⟩
    false 3 [⟨"svc-a", some "Go", false, "org"⟩] rfl
    (fun _ h => Option.noConfusion h)

/-- A non-branch-protection mutation is in particular a mutation. -/
theorem nonbp_imp_mut {V : Type} (c : RCall V) :
    isMutatingNonBP c = true → isMutating c = true := by
  cases c <;> simp [isMutatingNonBP, isMutating]

/-- A trace with no mutations has no non-BP mutations either. -/
theorem filter_nonbp_of_nonmut {V : Type} (l : List (RCall V))
    (h : l.countP (fun c => isMutating c) = 0) :
    l.filter (fun c => isMutatingNonBP c) = [] := by
  induction l with
  | nil => rfl
  | cons c cs ih =>
      rw [List.countP_cons] at h
      have hc : isMutating c = false := by
        cases hm : isMutating c
        · rfl
        · rw [hm] at h; simp at h
      have hcs : cs.countP (fun c => isMutating c) = 0 := by
        rw [hc] at h; simpa using h
      have hnb : isMutatingNonBP c = false := by
        cases hb : isMutatingNonBP c
        · rfl
        · rw [nonbp_imp_mut c hb] at hc; exact hc
      rw [List.filter_cons, hnb]
      simpa using ih hcs

/-- A loop whose every body trace has no `q`-calls has none overall. -/
theorem forTrace_filter_nil {V α : Type} (q : RCall V → Bool)
    (body : α → List Log × List (RCall V)) (l : List α)
    (h : ∀ a ∈ l, (body a).2.filter q = []) :
    (forTrace body l).2.filter q = [] := by
  induction l with
  | nil => rfl
  | cons x xs ih =>
      simp only [forTrace]
      rw [List.filter_append, h x (List.mem_cons_self x xs),
        ih (fun a ha => h a (List.mem_cons_of_mem x ha))]
      rfl

/-- When the remote settings already satisfy the desired section, the repo
settings applier issues no mutation (only the read, when the section is
present). -/
theorem updateRepositorySettings_idem {V : Type} [DecidableEq V]
    (env : Env V) (org repo : String) (s : SyncSettings V)
    (hsat : settingsOkB env org repo s.repository = true) :
    (updateRepositorySettings env org repo s false).2.filter
      (fun c => isMutatingNonBP c) = [] := by
  unfold updateRepositorySettings getRepositorySettings
  cases hs : s.repository with
  | none => rfl
  | some desired =>
      rw [hs] at hsat
      unfold settingsOkB at hsat
      cases h : env.settingsGet org repo with
      | error e => rw [h] at hsat; exact Bool.noConfusion hsat
      | ok cur =>
          rw [h] at hsat
          have hemp : getSettingsDiff cur desired = [] := by
            simpa [List.isEmpty_iff] using hsat
          simp [hemp, isMutatingNonBP]

/-- A desired collaborator found with the desired role needs no call. -/
theorem needsCollabCall_false_of_found (current : List Collaborator)
    (c cc : Collaborator)
    (hf : current.find? (fun x => x.username == c.username) = some cc)
    (hr : cc.role = c.role) : needsCollabCall current c = false := by
  unfold needsCollabCall
  have hmem : cc ∈ current := List.mem_of_find?_eq_some hf
  have hpred := List.find?_some hf
  have hcontains : (current.map Collaborator.username).contains
      c.username = true := by
    have hm : c.username ∈ current.map Collaborator.username := by
      rw [List.mem_map]
      exact ⟨cc, hmem, by simpa using hpred⟩
    simpa using hm
  simp only [hcontains, Bool.not_true, Bool.false_eq_true, if_false, hf]
  simp [hr]

/-- When every desired collaborator is present with the desired role, the
collaborators block issues no mutation. -/
theorem collabSection_idem {V : Type} (env : Env V) (org name : String)
    (oc : Option (List Collaborator))
    (hsat : collabsOkB env org name oc = true) :
    (collabSection env org name oc false).2.filter
      (fun c => isMutatingNonBP c) = [] := by
  cases oc with
  | none => rfl
  | some dc =>
      simp only [collabSection]
      rw [updateRepositoryCollaborators_calls]
      have hnil : dc.filter (needsCollabCall (currentCollabsOf env org name))
          = [] := by
        rw [List.filter_eq_nil_iff]
        intro c hc
        unfold collabsOkB at hsat
        rw [List.all_eq_true] at hsat
        have hcc := hsat c hc
        cases hf : (currentCollabsOf env org name).find?
            (fun x => x.username == c.username) with
        | none => rw [hf] at hcc; exact Bool.noConfusion hcc
        | some cc =>
            rw [hf] at hcc
            have hr : cc.role = c.role := by simpa using hcc
            simp [needsCollabCall_false_of_found _ _ _ hf hr]
      rw [hnil]
      simp [isMutatingNonBP]

/-- The branch-protection block issues only branch-protection calls. -/
theorem bpSection_nonbp {V : Type} (env : Env V) (org name : String)
    (obp : Option (List (String × V))) (dryRun : Bool) :
    (bpSection env org name obp dryRun).2.filter
      (fun c => isMutatingNonBP c) = [] := by
  cases obp with
  | none => rfl
  | some bp =>
      simp only [bpSection]
      refine forTrace_filter_nil _ _ bp (fun p _ => ?_)
      unfold updateBranchProtection
      cases dryRun with
      | true => simp
      | false =>
          by_cases hok : env.mutOk (RCall.updateBranchProtection org name
              p.1 p.2) <;> simp [hok, isMutatingNonBP]

/-- When the remote file already equals the local file, the per-file sync
issues only the read. -/
theorem syncFileContent_idem {V : Type} (env : Env V) (org name : String)
    (spec : FileSyncSpec) (hsat : fileOkB env org name spec = true) :
    (syncFileContent env org name spec false).2 =
      [RCall.getContent org name spec.path] := by
  unfold fileOkB at hsat
  unfold syncFileContent getFileContent
  cases hl : env.localRead spec.localPath with
  | error e => simp [hl] at hsat
  | ok content =>
      rw [hl] at hsat
      cases hc : env.contentGet org name spec.path with
      | file rc sh =>
          rw [hc] at hsat
          have : rc = content := by simpa using hsat
          simp [this]
      | notFile => simp [hc] at hsat
      | notFound => simp [hc] at hsat
      | failure => simp [hc] at hsat

/-- When every desired file is already satisfied, the files block issues no
mutation. -/
theorem filesSection_idem {V : Type} (env : Env V) (org name : String)
    (ofl : Option (List FileSyncSpec))
    (hsat : filesOkB env org name ofl = true) :
    (filesSection env org name ofl false).2.filter
      (fun c => isMutatingNonBP c) = [] := by
  cases ofl with
  | none => rfl
  | some fl =>
      simp only [filesSection]
      unfold filesOkB at hsat
      rw [List.all_eq_true] at hsat
      refine forTrace_filter_nil _ _ fl (fun spec hs => ?_)
      rw [syncFileContent_idem env org name spec (hsat spec hs)]
      simp [isMutatingNonBP]

/-- Destructuring whole-repository satisfaction into its four domains. -/
theorem repoSatisfiesB_parts {V : Type} [DecidableEq V] (env : Env V)
    (org : String) (s : SyncSettings V) (repo : Repo)
    (h : repoSatisfiesB env org s repo = true) :
    settingsOkB env org repo.name s.repository = true ∧
      collabsOkB env org repo.name s.collaborators = true ∧
      bpOkB env org repo.name s.branch_protection = true ∧
      filesOkB env org repo.name s.files = true := by
  unfold repoSatisfiesB at h
  cases ha : settingsOkB env org repo.name s.repository <;>
    cases hb : collabsOkB env org repo.name s.collaborators <;>
    cases hc : bpOkB env org repo.name s.branch_protection <;>
    cases hd : filesOkB env org repo.name s.files <;>
    rw [ha, hb, hc, hd] at h <;> simp_all

/-- A satisfied repository generates no non-BP mutation in a live run. -/
theorem processRepo_idem {V : Type} [DecidableEq V] (env : Env V)
    (org : String) (s : SyncSettings V) (f : Filters) (repo : Repo)
    (hsat : repoSatisfiesB env org s repo = true) :
    (processRepo env org s f false repo).2.1.filter
      (fun c => isMutatingNonBP c) = [] := by
  obtain ⟨h1, h2, h3, h4⟩ := repoSatisfiesB_parts env org s repo hsat
  have hd : (shouldProcessRepository env repo f).2.1.filter
      (fun c => isMutatingNonBP c) = [] :=
    filter_nonbp_of_nonmut _ (shouldProcess_calls_nonmut env repo f).2
  cases hdd : (shouldProcessRepository env repo f).2.2 with
  | error e => simp only [processRepo, hdd]; exact hd
  | ok b =>
      cases b with
      | false => simp only [processRepo, hdd]; exact hd
      | true =>
          simp only [processRepo, hdd]
          simp only [List.filter_append]
          rw [hd, updateRepositorySettings_idem env org repo.name s h1,
            collabSection_idem env org repo.name s.collaborators h2,
            bpSection_nonbp env org repo.name s.branch_protection false,
            filesSection_idem env org repo.name s.files h4]
          rfl

/-- A loop over satisfied repositories generates no non-BP mutation. -/
theorem syncLoop_idem {V : Type} [DecidableEq V] (env : Env V)
    (org : String) (s : SyncSettings V) (f : Filters) :
    ∀ (repos : List Repo) (p sk : Nat),
      (∀ r ∈ repos, repoSatisfiesB env org s r = true) →
      (syncLoop env org s f false repos p sk).2.1.filter
        (fun c => isMutatingNonBP c) = [] := by
  intro repos
  induction repos with
  | nil => intro p sk _; rfl
  | cons repo rest ih =>
      intro p sk hsat
      have hthis := processRepo_idem env org s f repo
        (hsat repo (List.mem_cons_self repo rest))
      have hrest := fun p sk => ih p sk
        (fun r hr => hsat r (List.mem_cons_of_mem repo hr))
      cases hdd : (processRepo env org s f false repo).2.2 with
      | error e =>
          simp only [syncLoop, hdd]
          exact hthis
      | ok b =>
          cases b with
          | true =>
              simp only [syncLoop, hdd]
              rw [List.filter_append, hthis, hrest (p + 1) sk]
              rfl
          | false =>
              simp only [syncLoop, hdd]
              rw [List.filter_append, hthis, hrest p (sk + 1)]
              rfl

/-- C1 (amended): when the remote state already satisfies the desired
configuration in every domain, a live run issues no repository-settings
update, no collaborator set-permission call, and no file create/update — but
branch-protection overwrites are still issued unconditionally for every
configured branch (see the counterexample) — the run completes, and
`processed` counts the repositories that passed the filter (repositories
evaluated, not changed). -/
theorem idempotence_non_bp {V : Type} [DecidableEq V] (env : Env V)
    (org : String) (s : SyncSettings V) (f : Filters) (fuel : Nat)
    (repos : List Repo)
    (henum : (getRepositories env org fuel).2 = Except.ok repos)
    (hre : truthyS f.namePattern = true →
      ¬ env.regexCompile (f.namePattern.getD "") = none)
    (hsat : ∀ r ∈ repos, repoSatisfiesB env org s r = true) :
    ((syncSettings env org s f false fuel).2.1.filter
        (fun c => isMutatingNonBP c) = []) ∧
      ((syncSettings env org s f false fuel).2.2 =
        RunResult.completed repos.length
          (repos.countP (filterPasses env f))
          (repos.countP (fun r => !filterPasses env f r))) := by
  have hok : ∀ repo, (shouldProcessRepository env repo f).2.2 =
      Except.ok (filterPasses env f repo) :=
    fun repo => shouldProcess_ok env repo f hre
  have hloop := syncLoop_counts env org s f false hok repos 0 0
  have henumcalls : (getRepositories env org fuel).1.filter
      (fun c => isMutatingNonBP c) = [] :=
    filter_nonbp_of_nonmut _ (getRepositoriesAux_nonmut env org fuel 1 []).2
  have hloopcalls := syncLoop_idem env org s f repos 0 0 hsat
  constructor
  · simp only [syncSettings, henum, hloop]
    rw [List.filter_append, henumcalls, hloopcalls]
    rfl
  · simp only [syncSettings, henum, hloop, Nat.zero_add]

/-- Counterexample for C1: the remote state satisfies the desired
configuration in every domain (settings diff empty, collaborator present
with the desired role, branch protection equal, file content equal), the
enumerator succeeds, and yet a live run issues a mutating call — the
unconditional branch-protection overwrite. -/
theorem idempotence_cex :
    (([(⟨"svc-a", some "Go", false, "org"⟩ : Repo)]).all
        (repoSatisfiesB envA "org" exSettingsC) = true) ∧
      ((getRepositories envA "org" 3).2 =
        Except.ok [⟨"svc-a", some "Go", false, "org"⟩]) ∧
      ¬ ((syncSettings envA "org" exSettingsC ⟨none, none, none⟩
          false 3).2.1.filter (fun c => isMutating c) = []) := by
  refine ⟨by decide, rfl, by decide⟩

/-- Witness for C1's amended theorem: under the satisfied configuration the
live run issues no non-BP mutation and reports one processed repository. -/
theorem idempotence_non_bp_witness :
    ((syncSettings envA "org" exSettingsC ⟨none, none, none⟩
        false 3).2.1.filter (fun c => isMutatingNonBP c) = []) ∧
      ((syncSettings envA "org" exSettingsC ⟨none, none, none⟩
          false 3).2.2 =
        RunResult.completed
          ([(⟨"svc-a", some "Go", false, "org"⟩ : Repo)]).length
          (([(⟨"svc-a", some "Go", false, "org"⟩ : Repo)]).countP
            (filterPasses envA ⟨none, none, none⟩))
          (([(⟨"svc-a", some "Go", false, "org"⟩ : Repo)]).countP
            (fun r => !filterPasses envA ⟨none, none, none⟩ r))) :=
  idempotence_non_bp envA "org" exSettingsC ⟨none, none, none⟩ 3
    [⟨"svc-a", some "Go", false, "org"⟩] rfl
    (fun h => absurd h (by decide)) (by decide)
